import Mathlib

set_option maxRecDepth 40000

/-!
Verification of the document-reorder engine of this repository.

The core is the `WordProcessor` class (pages/Index.tsx): it unzips a
word-processing package, splits the main document markup into a header
prefix, a list of paragraph fragments and a footer suffix, lets the list
be permuted by drag events, and re-emits a package.  The embedding below
follows the source line by line:

  * raw markup is modelled as `List Char`; the JavaScript string methods
    `indexOf`, `lastIndexOf`, `substring`, `trim` used by the source are
    reproduced with their exact clamping semantics (`jsIndexOf`,
    `jsLastIndexOf`, `jsSubstringTo`, `jsSubstringFrom`, `jsTrim`);
  * the browser DOM pipeline (DOMParser, querySelector, querySelectorAll,
    XMLSerializer, textContent) is modelled over an explicit element tree
    `Xml`.  The modelling assumptions are: a parsed tree serializes back
    to the markup it came from (attributes kept verbatim in source order,
    no namespace re-declaration, no self-closing forms), and selector
    matching is by literal tag name, in document (pre)order;
  * the zip container is modelled as optional named parts in `Package`;
  * `Date.now()` and `new Date().toISOString()` are passed in as
    parameters (`now`, `nowIso`), since each load or export samples the
    clock once per concern in the source.
-/

/-- Whitespace test used to model the JavaScript `String.prototype.trim`. -/
def wsChar (c : Char) : Bool :=
  c = ' ' || c = '\t' || c = '\n' || c = '\r'

/-- Models `s.trim()`: strip leading and trailing whitespace. -/
def jsTrim (s : List Char) : List Char :=
  ((s.dropWhile wsChar).reverse.dropWhile wsChar).reverse

/-- Index of the first occurrence of `pat` in `s`, if any; the model of a
successful JavaScript `indexOf`. -/
def firstIdx (pat : List Char) : List Char → Option Nat
  | [] => if pat.isPrefixOf [] then some 0 else none
  | c :: s => if pat.isPrefixOf (c :: s) then some 0 else (firstIdx pat s).map (· + 1)

/-- Index of the last occurrence of `pat` in `s`, if any; the model of a
successful JavaScript `lastIndexOf`. -/
def lastIdx (pat : List Char) : List Char → Option Nat
  | [] => if pat.isPrefixOf [] then some 0 else none
  | c :: s =>
    match lastIdx pat s with
    | some n => some (n + 1)
    | none => if pat.isPrefixOf (c :: s) then some 0 else none

/-- JavaScript `s.indexOf(pat)`: first occurrence or `-1`. -/
def jsIndexOf (pat s : List Char) : Int :=
  match firstIdx pat s with
  | some n => (n : Int)
  | none => -1

/-- JavaScript `s.lastIndexOf(pat)`: last occurrence or `-1`. -/
def jsLastIndexOf (pat s : List Char) : Int :=
  match lastIdx pat s with
  | some n => (n : Int)
  | none => -1

/-- JavaScript `s.substring(0, e)`: a negative bound clamps to `0`, a bound
past the end clamps to the length. -/
def jsSubstringTo (s : List Char) (e : Int) : List Char :=
  s.take e.toNat

/-- JavaScript `s.substring(a)`: a negative start clamps to `0`. -/
def jsSubstringFrom (s : List Char) (a : Int) : List Char :=
  s.drop a.toNat

/-- Element tree produced by `DOMParser.parseFromString`.  `attrs` is the
verbatim attribute text of the start tag, leading space included. -/
inductive Xml where
  | elem (tag : String) (attrs : String) (children : List Xml)
  | text (s : String)

/-- Children of a node; a text node has none. -/
def childrenOf : Xml → List Xml
  | .elem _ _ ch => ch
  | .text _ => []

mutual

/-- Models `new XMLSerializer().serializeToString(node)` under the stated
round-trip assumptions. -/
def serialize : Xml → List Char
  | .elem tag attrs ch =>
      "<".data ++ tag.data ++ attrs.data ++ ">".data ++ serializeList ch
        ++ "</".data ++ tag.data ++ ">".data
  | .text s => s.data

/-- Serialization of a sequence of sibling nodes. -/
def serializeList : List Xml → List Char
  | [] => []
  | x :: xs => serialize x ++ serializeList xs

end

mutual

/-- Models `node.textContent`: concatenation of all text in the subtree. -/
def textContent : Xml → List Char
  | .elem _ _ ch => textContentList ch
  | .text s => s.data

/-- Concatenated text content of a sequence of sibling nodes. -/
def textContentList : List Xml → List Char
  | [] => []
  | x :: xs => textContent x ++ textContentList xs

end

mutual

/-- Matches of a tag-name selector list inside one subtree, the subtree
root included, in document (pre)order. -/
def qsaOne (tags : List String) : Xml → List Xml
  | .text _ => []
  | .elem t a ch =>
      (if t ∈ tags then [Xml.elem t a ch] else []) ++ qsaList tags ch

/-- Models `root.querySelectorAll(tagA, tagB)` restricted to tag-name
selectors, applied to a sibling list: every element of the forest whose tag
is listed in `tags`, in document order, nested matches included. -/
def qsaList (tags : List String) : List Xml → List Xml
  | [] => []
  | x :: xs => qsaOne tags x ++ qsaList tags xs

end

mutual

/-- Models `doc.querySelector(tagA, tagB)`: the first element in preorder
whose tag is listed in `tags`. -/
def findTag (tags : List String) : Xml → Option Xml
  | .text _ => none
  | .elem t a ch =>
      if t ∈ tags then some (.elem t a ch) else findTagList tags ch

/-- Preorder search over a sibling list. -/
def findTagList (tags : List String) : List Xml → Option Xml
  | [] => none
  | x :: xs =>
    match findTag tags x with
    | some r => some r
    | none => findTagList tags xs

end

/-- Tag selectors of `body.querySelectorAll` for paragraphs in the source. -/
def pTags : List String := ["w:p", "p"]

/-- Tag selectors of `pElement.querySelectorAll` for text runs. -/
def tTags : List String := ["w:t", "t"]

/-- Tag selectors of `doc.querySelector` for the document body. -/
def bodyTags : List String := ["w:body", "body"]

/-- The `WordParagraph` record of pages/Index.tsx. -/
structure WordParagraph where
  id : List Char
  xmlContent : List Char
  displayText : List Char
  originalIndex : Nat
deriving DecidableEq

/-- The `WordDocumentStructure` record of pages/Index.tsx. -/
structure WordDocumentStructure where
  headerXml : List Char
  footerXml : List Char
  paragraphs : List WordParagraph
  styles : List Char
  relationships : List Char
deriving DecidableEq

/-- The mutable `WordProcessor` instance state: `documentStructure` starts
as `null` and is assigned by a successful parse. -/
structure WordProcessorState where
  documentStructure : Option WordDocumentStructure
deriving DecidableEq

/-- An unzipped input package: each part is present or absent.  The main
document part is carried as its parsed tree (see the module comment). -/
structure Package where
  documentPart : Option Xml
  stylesPart : Option (List Char)
  relationshipsPart : Option (List Char)

/-- The errors `parseWordDocument` can throw. -/
inductive ParseError where
  | invalidWordDocument
  | noBody
deriving DecidableEq

/-- The error `exportReorderedDocument` throws without a loaded structure. -/
inductive ExportError where
  | noDocumentStructure
deriving DecidableEq

instance {e a : Type} [DecidableEq e] [DecidableEq a] : DecidableEq (Except e a) := fun x y =>
  match x, y with
  | .ok u, .ok v =>
    match decEq u v with
    | isTrue h => isTrue (h ▸ rfl)
    | isFalse h => isFalse (fun hc => h (Except.ok.inj hc))
  | .error u, .error v =>
    match decEq u v with
    | isTrue h => isTrue (h ▸ rfl)
    | isFalse h => isFalse (fun hc => h (Except.error.inj hc))
  | .ok _, .error _ => isFalse (fun hc => Except.noConfusion hc)
  | .error _, .ok _ => isFalse (fun hc => Except.noConfusion hc)

/-- The paragraph id template literal `para-(index)-(Date.now())`. -/
def mkId (i now : Nat) : List Char :=
  "para-".data ++ (toString i).data ++ "-".data ++ (toString now).data

/-- The display text derived for one paragraph element: text contents of
all `w:t`/`t` descendant runs, joined and trimmed. -/
def displayTextOf (p : Xml) : List Char :=
  jsTrim (((qsaList tTags (childrenOf p)).map textContent).flatten)

/-- The `paragraphElements.forEach` loop of `parseWordDocument`, carrying
the running element index: paragraphs with empty display text are skipped,
the others keep the pre-filter index as `originalIndex`. -/
def buildParasAux (now : Nat) : Nat → List Xml → List WordParagraph
  | _, [] => []
  | idx, p :: rest =>
    (if displayTextOf p = [] then []
     else [{ id := mkId idx now, xmlContent := serialize p,
             displayText := displayTextOf p, originalIndex := idx }])
      ++ buildParasAux now (idx + 1) rest

/-- Paragraph records built from the selected paragraph elements. -/
def buildParas (now : Nat) (pElems : List Xml) : List WordParagraph :=
  buildParasAux now 0 pElems

/-- `WordProcessor.getDocumentHeader` (pages/Index.tsx lines 113-122),
with the exact JavaScript conditional and clamping behaviour. -/
def getDocumentHeader (documentXml : List Char) : List Char :=
  let i1 := jsIndexOf "<w:p ".data documentXml
  let firstParagraphIndex := if i1 ≠ -1 then i1 else jsIndexOf "<w:p>".data documentXml
  if firstParagraphIndex ≠ -1 then jsSubstringTo documentXml firstParagraphIndex
  else jsSubstringTo documentXml (jsIndexOf "<w:body>".data documentXml + 8)

/-- `WordProcessor.getDocumentFooter` (pages/Index.tsx lines 124-130). -/
def getDocumentFooter (documentXml : List Char) : List Char :=
  let lastParagraphIndex := jsLastIndexOf "</w:p>".data documentXml
  if lastParagraphIndex ≠ -1 then jsSubstringFrom documentXml (lastParagraphIndex + 6)
  else "</w:body></w:document>".data

/-- `WordProcessor.parseWordDocument` (pages/Index.tsx lines 45-111): fails
when the main document part is missing or no body element is found,
otherwise builds the paragraph records and stores the document structure.
The processor state is threaded explicitly; a thrown error leaves it
untouched. -/
def parseWordDocument (now : Nat) (pkg : Package) (st : WordProcessorState) :
    WordProcessorState × Except ParseError (List WordParagraph) :=
  match pkg.documentPart with
  | none => (st, .error .invalidWordDocument)
  | some root =>
    match findTag bodyTags root with
    | none => (st, .error .noBody)
    | some body =>
      let paras := buildParas now (qsaList pTags (childrenOf body))
      let docXml := serialize root
      ({ documentStructure := some
          { headerXml := getDocumentHeader docXml
            footerXml := getDocumentFooter docXml
            paragraphs := paras
            styles := (pkg.stylesPart.getD [])
            relationships := (pkg.relationshipsPart.getD []) } },
       .ok paras)

/-- The fixed `[Content_Types].xml` template of `getContentTypesXml`. -/
def contentTypesXml : List Char :=
  ("<?xml version=\"1.0\" encoding=\"UTF-8\" standalone=\"yes\"?>\n<Types xmlns=\"http://schemas.openxmlformats.org/package/2006/content-types\">\n  <Default Extension=\"rels\" ContentType=\"application/vnd.openxmlformats-package.relationships+xml\"/>\n  <Default Extension=\"xml\" ContentType=\"application/xml\"/>\n  <Override PartName=\"/word/document.xml\" ContentType=\"application/vnd.openxmlformats-officedocument.wordprocessingml.document.main+xml\"/>\n  <Override PartName=\"/word/styles.xml\" ContentType=\"application/vnd.openxmlformats-officedocument.wordprocessingml.styles+xml\"/>\n  <Override PartName=\"/word/settings.xml\" ContentType=\"application/vnd.openxmlformats-officedocument.wordprocessingml.settings+xml\"/>\n  <Override PartName=\"/word/webSettings.xml\" ContentType=\"application/vnd.openxmlformats-officedocument.wordprocessingml.webSettings+xml\"/>\n  <Override PartName=\"/word/fontTable.xml\" ContentType=\"application/vnd.openxmlformats-officedocument.wordprocessingml.fontTable+xml\"/>\n  <Override PartName=\"/docProps/core.xml\" ContentType=\"application/vnd.openxmlformats-package.core-properties+xml\"/>\n  <Override PartName=\"/docProps/app.xml\" ContentType=\"application/vnd.openxmlformats-officedocument.extended-properties+xml\"/>\n</Types>").data

/-- The fixed `_rels/.rels` template of `getMainRelsXml`. -/
def mainRelsXml : List Char :=
  ("<?xml version=\"1.0\" encoding=\"UTF-8\" standalone=\"yes\"?>\n<Relationships xmlns=\"http://schemas.openxmlformats.org/package/2006/relationships\">\n  <Relationship Id=\"rId1\" Type=\"http://schemas.openxmlformats.org/officeDocument/2006/relationships/officeDocument\" Target=\"word/document.xml\"/>\n  <Relationship Id=\"rId2\" Type=\"http://schemas.openxmlformats.org/package/2006/relationships/metadata/core-properties\" Target=\"docProps/core.xml\"/>\n  <Relationship Id=\"rId3\" Type=\"http://schemas.openxmlformats.org/officeDocument/2006/relationships/extended-properties\" Target=\"docProps/app.xml\"/>\n</Relationships>").data

/-- The fixed `word/fontTable.xml` template of `getFontTableXml`. -/
def fontTableXml : List Char :=
  ("<?xml version=\"1.0\" encoding=\"UTF-8\" standalone=\"yes\"?>\n<w:fonts xmlns:w=\"http://schemas.openxmlformats.org/wordprocessingml/2006/main\">\n  <w:font w:name=\"Times New Roman\">\n    <w:panose1 w:val=\"02020603050405020304\"/>\n    <w:charset w:val=\"00\"/>\n    <w:family w:val=\"roman\"/>\n    <w:pitch w:val=\"variable\"/>\n    <w:sig w:usb0=\"E0002EFF\" w:usb1=\"C000785B\" w:usb2=\"00000009\" w:usb3=\"00000000\" w:csb0=\"000001FF\" w:csb1=\"00000000\"/>\n  </w:font>\n</w:fonts>").data

/-- The fixed `word/settings.xml` template of `getSettingsXml`. -/
def settingsXml : List Char :=
  ("<?xml version=\"1.0\" encoding=\"UTF-8\" standalone=\"yes\"?>\n<w:settings xmlns:w=\"http://schemas.openxmlformats.org/wordprocessingml/2006/main\">\n  <w:zoom w:percent=\"100\"/>\n  <w:defaultTabStop w:val=\"708\"/>\n  <w:characterSpacingControl w:val=\"doNotCompress\"/>\n</w:settings>").data

/-- The fixed `word/webSettings.xml` template of `getWebSettingsXml`. -/
def webSettingsXml : List Char :=
  ("<?xml version=\"1.0\" encoding=\"UTF-8\" standalone=\"yes\"?>\n<w:webSettings xmlns:w=\"http://schemas.openxmlformats.org/wordprocessingml/2006/main\">\n  <w:optimizeForBrowser/>\n</w:webSettings>").data

/-- The fixed `docProps/app.xml` template of `getAppPropertiesXml`. -/
def appPropertiesXml : List Char :=
  ("<?xml version=\"1.0\" encoding=\"UTF-8\" standalone=\"yes\"?>\n<Properties xmlns=\"http://schemas.openxmlformats.org/officeDocument/2006/extended-properties\">\n  <Application>Document Editor</Application>\n  <DocSecurity>0</DocSecurity>\n  <ScaleCrop>false</ScaleCrop>\n  <SharedDoc>false</SharedDoc>\n  <HyperlinksChanged>false</HyperlinksChanged>\n  <AppVersion>1.0000</AppVersion>\n</Properties>").data

/-- Text of `getCorePropertiesXml` before the first timestamp splice. -/
def corePropsPre : List Char :=
  ("<?xml version=\"1.0\" encoding=\"UTF-8\" standalone=\"yes\"?>\n<cp:coreProperties xmlns:cp=\"http://schemas.openxmlformats.org/package/2006/metadata/core-properties\" xmlns:dc=\"http://purl.org/dc/elements/1.1/\" xmlns:dcterms=\"http://purl.org/dc/terms/\" xmlns:dcmitype=\"http://purl.org/dc/dcmitype/\" xmlns:xsi=\"http://www.w3.org/2001/XMLSchema-instance\">\n  <dc:creator>Document Editor</dc:creator>\n  <dcterms:created xsi:type=\"dcterms:W3CDTF\">").data

/-- Text of `getCorePropertiesXml` between the two timestamp splices. -/
def corePropsMid : List Char :=
  ("</dcterms:created>\n  <dcterms:modified xsi:type=\"dcterms:W3CDTF\">").data

/-- Text of `getCorePropertiesXml` after the second timestamp splice. -/
def corePropsSuf : List Char :=
  ("</dcterms:modified>\n</cp:coreProperties>").data

/-- `getCorePropertiesXml`: the fixed template with the sampled timestamp
spliced in at the two `dcterms` fields. -/
def corePropertiesXml (nowIso : List Char) : List Char :=
  corePropsPre ++ nowIso ++ corePropsMid ++ nowIso ++ corePropsSuf

/-- `WordProcessor.exportReorderedDocument` (pages/Index.tsx lines
132-174), up to the part mapping written into the zip: fails without a
stored structure, otherwise rebuilds the main document part from the
stored header and footer around the passed paragraph order and emits the
ten named parts. -/
def exportReorderedDocument (nowIso : List Char) (reorderedParagraphs : List WordParagraph)
    (st : WordProcessorState) : Except ExportError (List (String × List Char)) :=
  match st.documentStructure with
  | none => .error .noDocumentStructure
  | some ds =>
    let reorderedXml :=
      ds.headerXml ++ (reorderedParagraphs.map (·.xmlContent)).flatten ++ ds.footerXml
    .ok [("word/document.xml", reorderedXml),
         ("word/styles.xml", ds.styles),
         ("word/_rels/document.xml.rels", ds.relationships),
         ("[Content_Types].xml", contentTypesXml),
         ("_rels/.rels", mainRelsXml),
         ("word/fontTable.xml", fontTableXml),
         ("word/settings.xml", settingsXml),
         ("word/webSettings.xml", webSettingsXml),
         ("docProps/app.xml", appPropertiesXml),
         ("docProps/core.xml", corePropertiesXml nowIso)]

/-- The part names written by `exportReorderedDocument`, in call order. -/
def mandatedPaths : List String :=
  ["word/document.xml", "word/styles.xml", "word/_rels/document.xml.rels",
   "[Content_Types].xml", "_rels/.rels", "word/fontTable.xml",
   "word/settings.xml", "word/webSettings.xml", "docProps/app.xml",
   "docProps/core.xml"]

/-- Content of a named part in an emitted part mapping. -/
def lookupPart (name : String) (parts : List (String × List Char)) : Option (List Char) :=
  (parts.find? (fun pr => pr.1 == name)).map (·.2)

/-- The main document part an export produces, or `none` on failure. -/
def exportDocPart (nowIso : List Char) (reordered : List WordParagraph)
    (st : WordProcessorState) : Option (List Char) :=
  match exportReorderedDocument nowIso reordered st with
  | .ok parts => lookupPart "word/document.xml" parts
  | .error _ => none

/-- Load a fresh processor and immediately export in the returned order:
the round trip of claim C1. -/
def roundTrip (now : Nat) (nowIso : List Char) (pkg : Package) : Option (List Char) :=
  match parseWordDocument now pkg { documentStructure := none } with
  | (st, .ok ps) => exportDocPart nowIso ps st
  | (_, .error _) => none

/-- `FileUploader.parseDocument` (word pipeline, FileUploader.tsx lines
15-38): parse with a fresh processor; on an error or an empty paragraph
list the document is rejected and no session is handed to the app. -/
def parseDocument (now : Nat) (pkg : Package) :
    Option (List WordParagraph × WordProcessorState) :=
  match parseWordDocument now pkg { documentStructure := none } with
  | (st, .ok ps) => if ps.length = 0 then none else some (ps, st)
  | (_, .error _) => none

/-- The `Paragraph` record of the DocumentEditor component. -/
structure Paragraph where
  id : List Char
  content : List Char
  originalIndex : Nat
deriving DecidableEq

/-- `DocumentEditor.handleParagraphsReorder`: the state setter is called
with the incoming list unconditionally; no validation happens. -/
def handleParagraphsReorder (_current newParagraphs : List Paragraph) : List Paragraph :=
  newParagraphs

/-- `DocumentEditor.handleParagraphEdit`: replace the `content` of the
paragraph with the given id, keeping every other field and every other
paragraph. -/
def handleParagraphEdit (ps : List Paragraph) (targetId newContent : List Char) :
    List Paragraph :=
  ps.map (fun p => if p.id = targetId then { p with content := newContent } else p)

/-- Modelled from the spec: the edit handler wired to
`WordParagraphList.onEdit` lives in a word-pipeline editor component that
is not among the source files; section 4.3 of the spec states that
`setText` updates the display text only and never touches id or markup. -/
def setTextWordParagraph (ps : List WordParagraph) (targetId newText : List Char) :
    List WordParagraph :=
  ps.map (fun p => if p.id = targetId then { p with displayText := newText } else p)

/-- Models the dnd-kit `arrayMove` helper used by both drag lists: remove
the element at `i` and reinsert it at `j`.  Out-of-range source indices
(unreachable through the drag UI, which derives both indices from
rendered items) are modelled as a no-op. -/
def arrayMove {α : Type} (l : List α) (i j : Nat) : List α :=
  match l[i]? with
  | none => l
  | some x => (l.eraseIdx i).insertIdx j x

/-- `handleDragEnd` (WordParagraphList.tsx lines 46-56 and the identical
ParagraphList.tsx handler), generic over the record type through its id
projection: when a drop target exists and differs from the dragged id,
move the dragged element to the target position. -/
def handleDragEnd {α : Type} (idOf : α → List Char) (ps : List α)
    (activeId : List Char) (overId : Option (List Char)) : List α :=
  match overId with
  | none => ps
  | some o =>
    if activeId = o then ps
    else
      match ps.findIdx? (fun p => idOf p == activeId), ps.findIdx? (fun p => idOf p == o) with
      | some oldIndex, some newIndex => arrayMove ps oldIndex newIndex
      | _, _ => ps

/-- A whole drag session: fold a list of (active id, over id) events. -/
def applyDrags {α : Type} (idOf : α → List Char) (ps : List α)
    (evs : List (List Char × Option (List Char))) : List α :=
  evs.foldl (fun cur ev => handleDragEnd idOf cur ev.1 ev.2) ps

/-- The standard document wrapper used to state the amended round-trip
claim: a `w:document` root holding a `w:body` whose children are given. -/
def mkStdDoc (ps : List Xml) : Xml :=
  .elem "w:document" "" [.elem "w:body" "" ps]

/-- A paragraph element in plain form: tag `w:p` with no attribute text. -/
def isPlainPara : Xml → Bool
  | .elem t a _ => t == "w:p" && a == ""
  | .text _ => false

/-- Serialization of the standard wrapper opening. -/
def stdHdr : List Char := "<w:document><w:body>".data

/-- Serialization of the standard wrapper closing. -/
def stdFtr : List Char := "</w:body></w:document>".data

/-- A plain paragraph with display text `Alpha`. -/
def parA : Xml := .elem "w:p" "" [.elem "w:r" "" [.elem "w:t" "" [.text "Alpha"]]]

/-- A plain paragraph with display text `Beta`. -/
def parB : Xml := .elem "w:p" "" [.elem "w:r" "" [.elem "w:t" "" [.text "Beta"]]]

/-- A paragraph whose only text run is whitespace: its display text trims
to empty, so the parser drops it. -/
def parWs : Xml := .elem "w:p" "" [.elem "w:r" "" [.elem "w:t" "" [.text "   "]]]

/-- A document with a stray text node between its two paragraphs. -/
def rootGap : Xml := .elem "w:document" "" [.elem "w:body" "" [parA, .text " ", parB]]

/-- Package around `rootGap`. -/
def pkgGap : Package := ⟨some rootGap, none, none⟩

/-- A document whose only paragraph has whitespace-only display text. -/
def rootWsOnly : Xml := .elem "w:document" "" [.elem "w:body" "" [parWs]]

/-- Package around `rootWsOnly`. -/
def pkgWsOnly : Package := ⟨some rootWsOnly, none, none⟩

/-- A document with a dropped paragraph before a surviving one. -/
def rootWsFirst : Xml := .elem "w:document" "" [.elem "w:body" "" [parWs, parA]]

/-- Package around `rootWsFirst`. -/
def pkgWsFirst : Package := ⟨some rootWsFirst, none, none⟩

/-- A package with styles but no main document part. -/
def pkgNoDoc : Package := ⟨none, some "styles".data, none⟩

/-- A well-behaved two-paragraph package in standard form. -/
def pkgStd : Package := ⟨some (mkStdDoc [parA, parB]), none, none⟩

/-- Markup in which a plain `<w:p>` start marker precedes the first
attributed `<w:p ` start marker. -/
def cexMarkup : List Char := "<w:body><w:p>A</w:p><w:p x>B</w:p></w:body>".data

/-- Markup with no paragraph marker and no body marker at all. -/
def plainMarkup : List Char := "plain text document".data

/-- A concrete word paragraph record. -/
def wpA : WordParagraph := ⟨"a".data, "<w:p>Alpha</w:p>".data, "Alpha".data, 0⟩

/-- A second concrete word paragraph record. -/
def wpB : WordParagraph := ⟨"b".data, "<w:p>Beta</w:p>".data, "Beta".data, 1⟩

/-- A concrete loaded document structure. -/
def dsW : WordDocumentStructure :=
  ⟨"HDR".data, "FTR".data, [wpA, wpB], "styles".data, "rels".data⟩

/-- A processor state holding `dsW`. -/
def stW : WordProcessorState := ⟨some dsW⟩

/-- A concrete editor paragraph record. -/
def prA : Paragraph := ⟨"a".data, "Alpha".data, 0⟩

/-- A second concrete editor paragraph record. -/
def prB : Paragraph := ⟨"b".data, "Beta".data, 1⟩

/-! ## String-search lemmas -/

theorem isPrefixOf_eq_true_iff (l1 l2 : List Char) : l1.isPrefixOf l2 = true ↔ l1 <+: l2 :=
  List.isPrefixOf_iff_prefix

theorem firstIdx_eq_some_of (pat s : List Char) (n : Nat)
    (h1 : pat <+: s.drop n) (h2 : ∀ m, m < n → ¬ pat <+: s.drop m) :
    firstIdx pat s = some n := by
  induction s generalizing n with
  | nil =>
    have hpat : pat = [] := List.prefix_nil.mp (by simpa using h1)
    cases n with
    | zero => simp [firstIdx, hpat, List.isPrefixOf]
    | succ m => exact absurd (by simp [hpat]) (h2 0 m.succ_pos)
  | cons c s ih =>
    cases n with
    | zero =>
      rw [List.drop_zero] at h1
      simp [firstIdx, (isPrefixOf_eq_true_iff pat (c :: s)).mpr h1]
    | succ m =>
      have hnot : ¬ pat <+: (c :: s) := by simpa using h2 0 m.succ_pos
      have hrec : firstIdx pat s = some m := by
        refine ih m (by simpa using h1) ?_
        intro k hk
        simpa using h2 (k + 1) (Nat.succ_lt_succ hk)
      have hb : pat.isPrefixOf (c :: s) = false :=
        Bool.eq_false_iff.mpr (fun hx => hnot ((isPrefixOf_eq_true_iff pat (c :: s)).mp hx))
      simp [firstIdx, hrec, hb]

theorem lastIdx_eq_none_of (pat s : List Char)
    (h : ∀ m, ¬ pat <+: s.drop m) :
    lastIdx pat s = none := by
  induction s with
  | nil =>
    have hpat : ¬ pat <+: [] := by simpa using h 0
    have hb : pat.isPrefixOf [] = false :=
      Bool.eq_false_iff.mpr (fun hx => hpat ((isPrefixOf_eq_true_iff pat []).mp hx))
    simp [lastIdx, hb]
  | cons c s ih =>
    have hrec : lastIdx pat s = none := ih (fun m => by simpa using h (m + 1))
    have h0 : ¬ pat <+: (c :: s) := by simpa using h 0
    have hb : pat.isPrefixOf (c :: s) = false :=
      Bool.eq_false_iff.mpr (fun hx => h0 ((isPrefixOf_eq_true_iff pat (c :: s)).mp hx))
    simp [lastIdx, hrec, hb]

theorem lastIdx_eq_some_of (pat s : List Char) (n : Nat)
    (h1 : pat <+: s.drop n) (h2 : ∀ m, n < m → ¬ pat <+: s.drop m) :
    lastIdx pat s = some n := by
  induction s generalizing n with
  | nil =>
    have hpat : pat = [] := List.prefix_nil.mp (by simpa using h1)
    cases n with
    | zero => simp [lastIdx, hpat, List.isPrefixOf]
    | succ m => exact absurd (by simp [hpat]) (h2 (m + 2) (by omega))
  | cons c s ih =>
    cases n with
    | zero =>
      rw [List.drop_zero] at h1
      have hrec : lastIdx pat s = none :=
        lastIdx_eq_none_of pat s (fun m => by simpa using h2 (m + 1) m.succ_pos)
      simp [lastIdx, hrec, (isPrefixOf_eq_true_iff pat (c :: s)).mpr h1]
    | succ m =>
      have hrec : lastIdx pat s = some m := by
        refine ih m (by simpa using h1) ?_
        intro k hk
        simpa using h2 (k + 1) (Nat.succ_lt_succ hk)
      simp [lastIdx, hrec]

theorem not_pref_drop_of_le (pat s : List Char) (j : Nat)
    (hp : pat ≠ []) (h : s.length ≤ j) : ¬ pat <+: s.drop j := by
  rw [List.drop_eq_nil_of_le h]
  intro hb
  exact hp (List.prefix_nil.mp hb)

theorem pref_drop_take_iff (pat s : List Char) (m k : Nat) (h : m + pat.length ≤ k) :
    pat <+: (s.take k).drop m ↔ pat <+: s.drop m := by
  rw [List.drop_take]
  exact List.prefix_take_iff.trans ⟨fun hx => hx.1, fun hx => ⟨hx, by omega⟩⟩

/-! ## Structural lemmas about the standard document family -/

theorem serialize_mkStdDoc (ps : List Xml) :
    serialize (mkStdDoc ps) = stdHdr ++ serializeList ps ++ stdFtr := by
  simp only [mkStdDoc, serialize, serializeList, List.append_nil, List.append_assoc,
    stdHdr, stdFtr]
  rfl

theorem serializeList_plain_cons (ch rest : List Xml) :
    serializeList (Xml.elem "w:p" "" ch :: rest)
      = "<w:p>".data ++ (serializeList ch ++ ("</w:p>".data ++ serializeList rest)) := by
  simp only [serializeList, serialize, List.append_assoc]
  rfl

theorem isPlainPara_shape (p : Xml) (h : isPlainPara p = true) :
    ∃ ch, p = Xml.elem "w:p" "" ch := by
  cases p with
  | elem t a c =>
    simp only [isPlainPara, Bool.and_eq_true, beq_iff_eq] at h
    exact ⟨c, by rw [h.1, h.2]⟩
  | text s => simp [isPlainPara] at h

theorem serializeList_ends (ps : List Xml) (h1 : ps ≠ [])
    (h2 : ∀ p ∈ ps, isPlainPara p = true) :
    ∃ M0, serializeList ps = M0 ++ "</w:p>".data := by
  induction ps with
  | nil => exact absurd rfl h1
  | cons p rest ih =>
    obtain ⟨ch, hp⟩ := isPlainPara_shape p (h2 p (List.mem_cons_self p rest))
    subst hp
    cases rest with
    | nil =>
      refine ⟨"<w:p>".data ++ serializeList ch, ?_⟩
      rw [serializeList_plain_cons]
      simp [serializeList, List.append_assoc]
    | cons q rest2 =>
      obtain ⟨M0, hM0⟩ := ih (by simp) (fun x hx => h2 x (List.mem_cons_of_mem _ hx))
      refine ⟨serialize (Xml.elem "w:p" "" ch) ++ M0, ?_⟩
      show serialize (Xml.elem "w:p" "" ch) ++ serializeList (q :: rest2) = _
      rw [hM0, List.append_assoc]

theorem stdHdr_length : stdHdr.length = 20 := rfl

theorem getDocumentHeader_std (M M1 : List Char)
    (hM : M = "<w:p>".data ++ M1)
    (h5 : firstIdx "<w:p ".data (stdHdr ++ M ++ stdFtr) = none) :
    getDocumentHeader (stdHdr ++ M ++ stdFtr) = stdHdr := by
  have hfi : firstIdx "<w:p>".data (stdHdr ++ M ++ stdFtr) = some 20 := by
    apply firstIdx_eq_some_of
    · have hd : (stdHdr ++ M ++ stdFtr).drop 20 = M ++ stdFtr := by
        rw [List.append_assoc]
        exact List.drop_left' stdHdr_length
      rw [hd, hM, List.append_assoc]
      exact List.prefix_append _ _
    · have key : ∀ m < 20,
          ¬ "<w:p>".data <+: (("<w:document><w:body><w:p>".data).drop m) := by decide
      intro m hm
      have htake : (stdHdr ++ M ++ stdFtr).take 25 = "<w:document><w:body><w:p>".data := by
        have hshape : stdHdr ++ M ++ stdFtr = (stdHdr ++ "<w:p>".data) ++ (M1 ++ stdFtr) := by
          rw [hM]
          simp [List.append_assoc]
        rw [hshape, List.take_left' (by rfl)]
        rfl
      have hle : m + ("<w:p>".data).length ≤ 25 := by
        have h5l : ("<w:p>".data).length = 5 := rfl
        omega
      rw [← pref_drop_take_iff "<w:p>".data (stdHdr ++ M ++ stdFtr) m 25 hle, htake]
      exact key m hm
  have e1 : jsIndexOf "<w:p ".data (stdHdr ++ M ++ stdFtr) = -1 := by
    unfold jsIndexOf
    rw [h5]
  have e2 : jsIndexOf "<w:p>".data (stdHdr ++ M ++ stdFtr) = 20 := by
    unfold jsIndexOf
    rw [hfi]
    rfl
  have htk : (stdHdr ++ M ++ stdFtr).take 20 = stdHdr := by
    rw [List.append_assoc]
    exact List.take_left' stdHdr_length
  simp only [getDocumentHeader, e1, e2, jsSubstringTo]
  norm_num
  exact htk

theorem getDocumentFooter_of_lastIdx (s : List Char) (n : Nat)
    (h : lastIdx "</w:p>".data s = some n) :
    getDocumentFooter s = s.drop (n + 6) := by
  have e1 : jsLastIndexOf "</w:p>".data s = (n : Int) := by
    unfold jsLastIndexOf
    rw [h]
  have hne : ((n : Int)) ≠ -1 := by omega
  unfold getDocumentFooter
  rw [e1]
  rw [if_pos hne]
  unfold jsSubstringFrom
  congr 1

theorem getDocumentFooter_std (M M0 : List Char)
    (hM : M = M0 ++ "</w:p>".data) :
    getDocumentFooter (stdHdr ++ M ++ stdFtr) = stdFtr := by
  have hshape : stdHdr ++ M ++ stdFtr = (stdHdr ++ M0) ++ ("</w:p>".data ++ stdFtr) := by
    rw [hM]
    simp [List.append_assoc]
  have hlenA : (stdHdr ++ M0).length = 20 + M0.length := by
    simp [List.length_append, stdHdr_length]
  have hdn : (stdHdr ++ M ++ stdFtr).drop (20 + M0.length) = "</w:p>".data ++ stdFtr := by
    rw [hshape]
    exact List.drop_left' hlenA
  have hli : lastIdx "</w:p>".data (stdHdr ++ M ++ stdFtr) = some (20 + M0.length) := by
    apply lastIdx_eq_some_of
    · rw [hdn]
      exact List.prefix_append _ _
    · intro m hm
      have hms : (stdHdr ++ M ++ stdFtr).drop m
          = ("</w:p>".data ++ stdFtr).drop (m - (20 + M0.length)) := by
        rw [← hdn, List.drop_drop]
        congr 1
        omega
      have hc28 : "</w:p>".data ++ stdFtr = "</w:p></w:body></w:document>".data := rfl
      rw [hms, hc28]
      by_cases hk : m - (20 + M0.length) < 29
      · have key2 : ∀ k < 29, 1 ≤ k →
            ¬ "</w:p>".data <+: (("</w:p></w:body></w:document>".data).drop k) := by decide
        exact key2 _ hk (by omega)
      · refine not_pref_drop_of_le _ _ _ (by decide) ?_
        have h28 : ("</w:p></w:body></w:document>".data).length = 28 := rfl
        omega
  have hdrop : (stdHdr ++ M ++ stdFtr).drop (20 + M0.length + 6) = stdFtr := by
    have hshape2 : stdHdr ++ M ++ stdFtr = (stdHdr ++ M0 ++ "</w:p>".data) ++ stdFtr := by
      rw [hM]
      simp [List.append_assoc]
    rw [hshape2]
    refine List.drop_left' ?_
    simp [List.length_append, stdHdr_length]
    omega
  rw [getDocumentFooter_of_lastIdx _ _ hli]
  exact hdrop

theorem getDocumentHeader_case1 (s : List Char) (i : Nat)
    (h : firstIdx "<w:p ".data s = some i) :
    getDocumentHeader s = s.take i := by
  have e1 : jsIndexOf "<w:p ".data s = (i : Int) := by
    unfold jsIndexOf
    rw [h]
  have hne : ((i : Int)) ≠ -1 := by omega
  unfold getDocumentHeader
  rw [e1]
  dsimp only
  rw [if_pos hne, if_pos hne]
  unfold jsSubstringTo
  congr 1

theorem getDocumentHeader_case2 (s : List Char) (j : Nat)
    (h1 : firstIdx "<w:p ".data s = none) (h2 : firstIdx "<w:p>".data s = some j) :
    getDocumentHeader s = s.take j := by
  have e1 : jsIndexOf "<w:p ".data s = -1 := by
    unfold jsIndexOf
    rw [h1]
  have e2 : jsIndexOf "<w:p>".data s = (j : Int) := by
    unfold jsIndexOf
    rw [h2]
  have hne : ((j : Int)) ≠ -1 := by omega
  have hneg : ¬ ((-1 : Int) ≠ -1) := by omega
  unfold getDocumentHeader
  rw [e1, e2]
  dsimp only
  rw [if_neg hneg, if_pos hne]
  unfold jsSubstringTo
  congr 1

/-! ## DOM-pipeline lemmas -/

theorem qsa_plain (ps : List Xml) (h2 : ∀ p ∈ ps, isPlainPara p = true)
    (h4 : ∀ p ∈ ps, qsaList pTags (childrenOf p) = []) :
    qsaList pTags ps = ps := by
  induction ps with
  | nil => rfl
  | cons p rest ih =>
    obtain ⟨ch, hp⟩ := isPlainPara_shape p (h2 p (List.mem_cons_self p rest))
    subst hp
    have hch : qsaList pTags ch = [] := h4 _ (List.mem_cons_self _ rest)
    have hrest : qsaList pTags rest = rest :=
      ih (fun x hx => h2 x (List.mem_cons_of_mem _ hx))
        (fun x hx => h4 x (List.mem_cons_of_mem _ hx))
    simp only [qsaList, qsaOne]
    rw [if_pos (by simp [pTags]), hch, hrest]
    simp

theorem buildParasAux_map_xml (now : Nat) (ps : List Xml) (idx : Nat)
    (h3 : ∀ p ∈ ps, displayTextOf p ≠ []) :
    (buildParasAux now idx ps).map (·.xmlContent) = ps.map serialize := by
  induction ps generalizing idx with
  | nil => rfl
  | cons p rest ih =>
    have hd : ¬ displayTextOf p = [] := h3 p (List.mem_cons_self p rest)
    simp only [buildParasAux, if_neg hd]
    simp [ih (idx + 1) (fun x hx => h3 x (List.mem_cons_of_mem _ hx))]

theorem flatten_map_serialize (ps : List Xml) :
    (ps.map serialize).flatten = serializeList ps := by
  induction ps with
  | nil => rfl
  | cons p rest ih => simp [serializeList, ih]

theorem buildParasAux_map_origIdx (now : Nat) (ps : List Xml) (idx : Nat) :
    (buildParasAux now idx ps).map (·.originalIndex)
      = ((List.enumFrom idx ps).filter (fun ip => !(displayTextOf ip.2 == []))).map
          Prod.fst := by
  induction ps generalizing idx with
  | nil => rfl
  | cons p rest ih =>
    by_cases hd : displayTextOf p = []
    · simp [buildParasAux, List.enumFrom, hd, ih (idx + 1)]
    · simp [buildParasAux, List.enumFrom, hd, ih (idx + 1)]

theorem buildParasAux_displayText (now : Nat) (ps : List Xml) (idx : Nat) :
    ∀ q ∈ buildParasAux now idx ps, q.displayText ≠ [] := by
  induction ps generalizing idx with
  | nil => intro q hq; cases hq
  | cons p rest ih =>
    intro q hq
    by_cases hd : displayTextOf p = []
    · simp only [buildParasAux, if_pos hd, List.nil_append] at hq
      exact ih (idx + 1) q hq
    · simp only [buildParasAux, if_neg hd, List.singleton_append, List.mem_cons] at hq
      rcases hq with hq | hq
      · rw [hq]
        exact hd
      · exact ih (idx + 1) q hq

/-! ## Reorder lemmas -/

theorem arrayMove_perm {α : Type} (l : List α) (i j : Nat) (hj : j < l.length) :
    (arrayMove l i j).Perm l := by
  cases hx : l[i]? with
  | none =>
    simp [arrayMove, hx]
  | some x =>
    have hi : i < l.length := by
      by_contra hni
      rw [List.getElem?_eq_none (by omega)] at hx
      cases hx
    have hxv : l[i] = x := by
      rw [List.getElem?_eq_getElem hi] at hx
      exact Option.some.inj hx
    have hlen : (l.eraseIdx i).length = l.length - 1 := by
      rw [List.length_eraseIdx]
      simp [hi]
    have step1 : (arrayMove l i j).Perm (x :: l.eraseIdx i) := by
      simp only [arrayMove, hx]
      exact List.perm_insertIdx x _ (by omega)
    refine step1.trans ?_
    rw [List.eraseIdx_eq_take_drop_succ]
    have hdi : l.drop i = x :: l.drop (i + 1) := by
      rw [← hxv]
      exact (List.getElem_cons_drop l i hi).symm
    have step2 : (x :: (l.take i ++ l.drop (i + 1))).Perm (l.take i ++ x :: l.drop (i + 1)) :=
      List.perm_middle.symm
    refine step2.trans ?_
    rw [← hdi, List.take_append_drop]

theorem handleDragEnd_perm {α : Type} (idOf : α → List Char) (ps : List α)
    (a : List Char) (o : Option (List Char)) :
    (handleDragEnd idOf ps a o).Perm ps := by
  cases o with
  | none => exact List.Perm.refl ps
  | some ov =>
    by_cases heq : a = ov
    · simp [handleDragEnd, heq]
    · simp only [handleDragEnd, if_neg heq]
      cases h1 : ps.findIdx? (fun p => idOf p == a) with
      | none => simp
      | some i =>
        cases h2 : ps.findIdx? (fun p => idOf p == ov) with
        | none => simp
        | some j =>
          simp only []
          obtain ⟨hlt, -⟩ := List.findIdx?_eq_some_iff_getElem.mp h2
          exact arrayMove_perm ps i j hlt

theorem applyDrags_perm {α : Type} (idOf : α → List Char)
    (evs : List (List Char × Option (List Char))) (ps : List α) :
    (applyDrags idOf ps evs).Perm ps := by
  induction evs generalizing ps with
  | nil => exact List.Perm.refl ps
  | cons e evs ih =>
    simp only [applyDrags, List.foldl_cons]
    exact (ih (handleDragEnd idOf ps e.1 e.2)).trans (handleDragEnd_perm idOf ps e.1 e.2)

/-! ## Export lemmas -/

theorem exportDocPart_eq (nowIso : List Char) (q : List WordParagraph)
    (st : WordProcessorState) (ds : WordDocumentStructure)
    (h : st.documentStructure = some ds) :
    exportDocPart nowIso q st
      = some (ds.headerXml ++ (q.map (·.xmlContent)).flatten ++ ds.footerXml) := by
  obtain ⟨sd⟩ := st
  simp only at h
  subst h
  rfl

/-! ## Claim theorems -/

/-- Claim C10: for every markup string containing no paragraph-start marker
of either form and no body-open marker, `getDocumentHeader` does not fail
but returns the first 7 characters of the markup, because the JavaScript
`indexOf` returns `-1` and `-1 + 8 = 7` is used unguarded as the substring
bound. -/
theorem c10_degenerate_header (s : List Char)
    (h1 : firstIdx "<w:p ".data s = none) (h2 : firstIdx "<w:p>".data s = none)
    (h3 : firstIdx "<w:body>".data s = none) :
    getDocumentHeader s = s.take 7 := by
  have e1 : jsIndexOf "<w:p ".data s = -1 := by
    unfold jsIndexOf
    rw [h1]
  have e2 : jsIndexOf "<w:p>".data s = -1 := by
    unfold jsIndexOf
    rw [h2]
  have e3 : jsIndexOf "<w:body>".data s = -1 := by
    unfold jsIndexOf
    rw [h3]
  have hneg : ¬ ((-1 : Int) ≠ -1) := by omega
  unfold getDocumentHeader
  rw [e1, e2, e3]
  dsimp only
  rw [if_neg hneg, if_neg hneg]
  rfl

/-- Witness for C10 at a concrete marker-free markup string. -/
theorem c10_witness : getDocumentHeader plainMarkup = plainMarkup.take 7 :=
  c10_degenerate_header plainMarkup (by decide) (by decide) (by decide)

/-- Claim C5 (amended): the header ends at the first occurrence of the
attributed start marker when one occurs anywhere (even if a plain start
marker occurs earlier), otherwise at the first occurrence of the plain
start marker; the footer begins after the last occurrence of the end
marker.  Hence a paragraph fragment can sit inside the header exactly when
a plain-form paragraph precedes the first attributed-form paragraph. -/
theorem c5_amended_split (s : List Char) :
    (∀ i, firstIdx "<w:p ".data s = some i → getDocumentHeader s = s.take i) ∧
    (firstIdx "<w:p ".data s = none →
      ∀ j, firstIdx "<w:p>".data s = some j → getDocumentHeader s = s.take j) ∧
    (∀ k, lastIdx "</w:p>".data s = some k → getDocumentFooter s = s.drop (k + 6)) :=
  ⟨fun i h => getDocumentHeader_case1 s i h,
   fun h1 j h2 => getDocumentHeader_case2 s j h1 h2,
   fun k h => getDocumentFooter_of_lastIdx s k h⟩

/-- Counterexample for C5 as stated: in `cexMarkup` the first
paragraph-start marker in the string is the plain form at index 8, yet the
header is not the prefix ending there; it extends to the later attributed
marker, swallowing the whole first paragraph fragment. -/
theorem c5_counterexample :
    firstIdx "<w:p>".data cexMarkup = some 8 ∧
    getDocumentHeader cexMarkup = "<w:body><w:p>A</w:p>".data ∧
    getDocumentHeader cexMarkup ≠ cexMarkup.take 8 :=
  ⟨by decide, by decide, by decide⟩

/-- Witness for the amended C5 at a concrete input. -/
theorem c5_witness :
    getDocumentHeader cexMarkup = cexMarkup.take 20 ∧
    getDocumentFooter cexMarkup = cexMarkup.drop (28 + 6) :=
  ⟨(c5_amended_split cexMarkup).1 20 (by decide),
   (c5_amended_split cexMarkup).2.2 28 (by decide)⟩

/-- Claim C7: loading an archive without the main document part throws the
invalid-package error and leaves the stored document structure null, so a
subsequent export fails with the no-structure error. -/
theorem c7_missing_document_part (now : Nat) (nowIso : List Char) (pkg : Package)
    (st : WordProcessorState) (q : List WordParagraph)
    (h1 : pkg.documentPart = none) (h2 : st.documentStructure = none) :
    parseWordDocument now pkg st = (st, .error .invalidWordDocument) ∧
    exportReorderedDocument nowIso q st = .error .noDocumentStructure := by
  obtain ⟨dp, sp, rp⟩ := pkg
  obtain ⟨sd⟩ := st
  simp only at h1 h2
  subst h1
  subst h2
  exact ⟨rfl, rfl⟩

/-- Witness for C7 at a concrete document-less package. -/
theorem c7_witness :
    parseWordDocument 0 pkgNoDoc ⟨none⟩ = (⟨none⟩, .error .invalidWordDocument) ∧
    exportReorderedDocument "T".data [] ⟨none⟩ = .error .noDocumentStructure :=
  c7_missing_document_part 0 "T".data pkgNoDoc ⟨none⟩ [] rfl rfl

/-- Counterexample for C4 as stated: a structurally splittable document
whose only paragraph trims to empty display text makes `parseWordDocument`
return successfully with an empty list instead of failing, and the
uploader rejects the empty result separately. -/
theorem c4_counterexample :
    (parseWordDocument 0 pkgWsOnly ⟨none⟩).2 = .ok [] ∧
    parseDocument 0 pkgWsOnly = none :=
  ⟨by decide, by decide⟩

/-- Claim C4 (amended): when the structural split succeeds but zero
paragraphs survive the empty-text filter, the core `parseWordDocument`
returns success with an empty paragraph list (there is no
no-paragraphs-found error in the core); the calling uploader checks for
the empty list and hands no session to the application. -/
theorem c4_amended (now : Nat) (pkg : Package) (root body : Xml)
    (st : WordProcessorState)
    (h1 : pkg.documentPart = some root)
    (h2 : findTag bodyTags root = some body)
    (h3 : buildParas now (qsaList pTags (childrenOf body)) = []) :
    (parseWordDocument now pkg st).2 = .ok [] ∧ parseDocument now pkg = none := by
  obtain ⟨dp, sp, rp⟩ := pkg
  simp only at h1
  subst h1
  constructor
  · simp only [parseWordDocument, h2, h3]
  · simp only [parseDocument, parseWordDocument, h2, h3]
    rfl

/-- Witness for the amended C4 at a concrete whitespace-only document. -/
theorem c4_witness :
    (parseWordDocument 0 pkgWsOnly ⟨none⟩).2 = .ok [] ∧
    parseDocument 0 pkgWsOnly = none :=
  c4_amended 0 pkgWsOnly rootWsOnly (Xml.elem "w:body" "" [parWs]) ⟨none⟩ rfl rfl rfl

/-- Counterexample for C6 as stated: with a dropped whitespace-only
paragraph before a surviving one, the surviving paragraph keeps
`originalIndex` 1, not its 0-based position 0 in the surviving order, so
the indices are not the contiguous range. -/
theorem c6_counterexample :
    (parseWordDocument 0 pkgWsFirst ⟨none⟩).2.map (fun l => l.map (·.originalIndex))
      = .ok [1] ∧ ([1] : List Nat) ≠ [0] :=
  ⟨by decide, by decide⟩

/-- Claim C6 (amended): paragraphs whose display text trims to empty are
dropped, and each surviving paragraph keeps as `originalIndex` its 0-based
index among all paragraph elements of the body, dropped ones included; the
resulting index sequence is strictly increasing but not necessarily
contiguous. -/
theorem c6_amended (now : Nat) (ps : List Xml) :
    (buildParas now ps).map (·.originalIndex)
        = ((List.enumFrom 0 ps).filter (fun ip => !(displayTextOf ip.2 == []))).map
            Prod.fst
      ∧ List.Pairwise (· < ·) ((buildParas now ps).map (·.originalIndex))
      ∧ ∀ q ∈ buildParas now ps, q.displayText ≠ [] := by
  refine ⟨buildParasAux_map_origIdx now ps 0, ?_, buildParasAux_displayText now ps 0⟩
  unfold buildParas
  rw [buildParasAux_map_origIdx now ps 0]
  have h1 : List.Pairwise (fun a b : Nat × Xml => a.1 < b.1) (List.enumFrom 0 ps) := by
    have h2 := List.pairwise_lt_range' 0 ps.length
    rw [← List.enumFrom_map_fst 0 ps] at h2
    exact List.pairwise_map.mp h2
  exact List.pairwise_map.mpr (List.Pairwise.filter _ h1)

/-- Witness for the amended C6 at a concrete input with a dropped first
paragraph. -/
theorem c6_witness : (buildParas 0 [parWs, parA]).map (·.originalIndex) = [1] :=
  ((c6_amended 0 [parWs, parA]).1).trans (by decide)

/-- Counterexample for C3 as stated: calling the reorder callback with a
list that duplicates one id (not a permutation of the current id set) does
not fail and does not leave the list unchanged; the new list simply
replaces the old one, since the callback has no validation or error path. -/
theorem c3_counterexample :
    handleParagraphsReorder [prA, prB] [prA, prA] = [prA, prA] ∧
    ([prA, prA] : List Paragraph) ≠ [prA, prB] :=
  ⟨rfl, by decide⟩

/-- Claim C3 (amended): the reorder callback replaces the paragraph list
with its argument unconditionally and has no invalid-permutation error
path; non-permutations cannot arise through the drag flow, because every
list `handleDragEnd` hands to the callback is a permutation of the current
list. -/
theorem c3_amended :
    (∀ cur newList : List Paragraph, handleParagraphsReorder cur newList = newList) ∧
    (∀ (ps : List Paragraph) (a : List Char) (o : Option (List Char)),
      (handleDragEnd (·.id) ps a o).Perm ps) ∧
    (∀ (ps : List WordParagraph) (a : List Char) (o : Option (List Char)),
      (handleDragEnd (·.id) ps a o).Perm ps) :=
  ⟨fun _ _ => rfl,
   fun ps a o => handleDragEnd_perm _ ps a o,
   fun ps a o => handleDragEnd_perm _ ps a o⟩

/-- Witness for the amended C3 at concrete lists. -/
theorem c3_witness :
    handleParagraphsReorder [prA] [prB] = [prB] ∧
    (handleDragEnd (·.id) [wpA, wpB] "b".data (some "a".data)).Perm [wpA, wpB] :=
  ⟨c3_amended.1 [prA] [prB], c3_amended.2.2 [wpA, wpB] "b".data (some "a".data)⟩

/-- Claim C8: any drag sequence permutes the paragraph records without
altering any record, so no id ever changes under reorder; the editor edit
handler changes only the content field at the matching id, preserving
every id and original index; and the spec-modelled word-paragraph text
edit preserves id, stored markup fragment and original index everywhere. -/
theorem c8_identity_stability :
    (∀ (ps : List WordParagraph) (evs : List (List Char × Option (List Char))),
        (applyDrags (·.id) ps evs).Perm ps) ∧
    (∀ (ps : List Paragraph) (e t : List Char),
        (handleParagraphEdit ps e t).map (·.id) = ps.map (·.id) ∧
        (handleParagraphEdit ps e t).map (·.originalIndex) = ps.map (·.originalIndex) ∧
        ∀ p ∈ ps, p.id ≠ e → p ∈ handleParagraphEdit ps e t) ∧
    (∀ (ps : List WordParagraph) (e t : List Char),
        (setTextWordParagraph ps e t).map (·.id) = ps.map (·.id) ∧
        (setTextWordParagraph ps e t).map (·.xmlContent) = ps.map (·.xmlContent) ∧
        (setTextWordParagraph ps e t).map (·.originalIndex) = ps.map (·.originalIndex)) := by
  refine ⟨fun ps evs => applyDrags_perm _ evs ps,
    fun ps e t => ⟨?_, ?_, ?_⟩, fun ps e t => ⟨?_, ?_, ?_⟩⟩
  · unfold handleParagraphEdit
    rw [List.map_map]
    apply List.map_congr_left
    intro p _
    by_cases h : p.id = e <;> simp [h]
  · unfold handleParagraphEdit
    rw [List.map_map]
    apply List.map_congr_left
    intro p _
    by_cases h : p.id = e <;> simp [h]
  · intro p hp hne
    unfold handleParagraphEdit
    refine List.mem_map.mpr ⟨p, hp, ?_⟩
    simp only [if_neg hne]
  · unfold setTextWordParagraph
    rw [List.map_map]
    apply List.map_congr_left
    intro p _
    by_cases h : p.id = e <;> simp [h]
  · unfold setTextWordParagraph
    rw [List.map_map]
    apply List.map_congr_left
    intro p _
    by_cases h : p.id = e <;> simp [h]
  · unfold setTextWordParagraph
    rw [List.map_map]
    apply List.map_congr_left
    intro p _
    by_cases h : p.id = e <;> simp [h]

/-- Witness for C8 at concrete inputs. -/
theorem c8_witness :
    (applyDrags (·.id) [wpA, wpB] [("b".data, some "a".data)]).Perm [wpA, wpB] ∧
    (setTextWordParagraph [wpA] "zz".data "Edited".data).map (·.xmlContent)
      = [wpA.xmlContent] :=
  ⟨c8_identity_stability.1 [wpA, wpB] [("b".data, some "a".data)],
   ((c8_identity_stability.2.2 [wpA] "zz".data "Edited".data).2.1).trans (by decide)⟩

/-- Claim C2: for every loaded session, any sequence of drag events yields
a permutation of the stored paragraphs (this is the permutation the drags
realise), and exporting the permuted list produces a main document part
that is exactly the stored header, the fragment sequence in the permuted
order, and the stored footer. -/
theorem c2_permutation_fidelity (nowIso : List Char) (st : WordProcessorState)
    (ds : WordDocumentStructure) (evs : List (List Char × Option (List Char)))
    (q : List WordParagraph)
    (h1 : st.documentStructure = some ds)
    (h2 : q = applyDrags (·.id) ds.paragraphs evs) :
    q.Perm ds.paragraphs ∧
    (q.map (·.xmlContent)).Perm (ds.paragraphs.map (·.xmlContent)) ∧
    exportDocPart nowIso q st
      = some (ds.headerXml ++ (q.map (·.xmlContent)).flatten ++ ds.footerXml) := by
  subst h2
  exact ⟨applyDrags_perm _ evs ds.paragraphs,
    (applyDrags_perm _ evs ds.paragraphs).map (·.xmlContent),
    exportDocPart_eq nowIso _ st ds h1⟩

/-- Witness for C2 at a concrete session and a single drag event. -/
theorem c2_witness :
    (applyDrags (·.id) dsW.paragraphs [("b".data, some "a".data)]).Perm dsW.paragraphs ∧
    exportDocPart "T".data (applyDrags (·.id) dsW.paragraphs [("b".data, some "a".data)]) stW
      = some (dsW.headerXml
          ++ ((applyDrags (·.id) dsW.paragraphs
                [("b".data, some "a".data)]).map (·.xmlContent)).flatten
          ++ dsW.footerXml) := by
  have h := c2_permutation_fidelity "T".data stW dsW [("b".data, some "a".data)] _ rfl rfl
  exact ⟨h.1, h.2.2⟩

/-- Claim C9: a successful export emits exactly the ten mandated parts at
their fixed paths; every synthesized part other than the main document
part is a fixed constant template, except the core-properties part, which
is the fixed template with the sampled timestamp spliced into its two
timestamp fields; the styles and relationships parts are the stored
session copies; so two exports of one session can differ only in the
timestamps and the document part. -/
theorem c9_fixed_part_set (nowIso : List Char) (q : List WordParagraph)
    (st : WordProcessorState) (ds : WordDocumentStructure)
    (h : st.documentStructure = some ds) :
    ∃ parts, exportReorderedDocument nowIso q st = .ok parts ∧
      parts.map Prod.fst = mandatedPaths ∧
      lookupPart "[Content_Types].xml" parts = some contentTypesXml ∧
      lookupPart "_rels/.rels" parts = some mainRelsXml ∧
      lookupPart "word/fontTable.xml" parts = some fontTableXml ∧
      lookupPart "word/settings.xml" parts = some settingsXml ∧
      lookupPart "word/webSettings.xml" parts = some webSettingsXml ∧
      lookupPart "docProps/app.xml" parts = some appPropertiesXml ∧
      lookupPart "docProps/core.xml" parts = some (corePropertiesXml nowIso) ∧
      lookupPart "word/styles.xml" parts = some ds.styles ∧
      lookupPart "word/_rels/document.xml.rels" parts = some ds.relationships ∧
      lookupPart "word/document.xml" parts
        = some (ds.headerXml ++ (q.map (·.xmlContent)).flatten ++ ds.footerXml) := by
  obtain ⟨sd⟩ := st
  simp only at h
  subst h
  exact ⟨_, rfl, rfl, rfl, rfl, rfl, rfl, rfl, rfl, rfl, rfl, rfl, rfl⟩

/-- Witness for C9 at a concrete session. -/
theorem c9_witness :
    ∃ parts, exportReorderedDocument "T".data [wpA] stW = .ok parts ∧
      parts.map Prod.fst = mandatedPaths ∧
      lookupPart "docProps/core.xml" parts = some (corePropertiesXml "T".data) := by
  obtain ⟨parts, e1, e2, ect, emr, eft, eset, eweb, eapp, ecore, esty, erel, edoc⟩ :=
    c9_fixed_part_set "T".data [wpA] stW dsW rfl
  exact ⟨parts, e1, e2, ecore⟩

theorem parseWordDocument_ok (now : Nat) (root body : Xml) (sp rp : Option (List Char))
    (st : WordProcessorState)
    (hb : findTag bodyTags root = some body) :
    parseWordDocument now ⟨some root, sp, rp⟩ st
      = (⟨some { headerXml := getDocumentHeader (serialize root)
                 footerXml := getDocumentFooter (serialize root)
                 paragraphs := buildParas now (qsaList pTags (childrenOf body))
                 styles := sp.getD []
                 relationships := rp.getD [] }⟩,
         .ok (buildParas now (qsaList pTags (childrenOf body)))) := by
  unfold parseWordDocument
  simp only [hb]

/-- Claim C1 (amended): the identity-order round trip reproduces the main
document part byte for byte for packages whose document is the standard
wrapper around a body whose children are exactly plain (attribute-free)
`w:p` paragraph elements, each with nonempty display text and no nested
paragraph descendants, and whose markup never contains the attributed
start marker; outside this family content sitting between paragraphs
inside the body is dropped by the split, so exact reconstruction can fail
even when no paragraph is dropped for empty display text. -/
theorem c1_roundtrip_identity (now : Nat) (nowIso : List Char)
    (styles rels : Option (List Char)) (ps : List Xml)
    (h1 : ps ≠ [])
    (h2 : ∀ p ∈ ps, isPlainPara p = true)
    (h3 : ∀ p ∈ ps, displayTextOf p ≠ [])
    (h4 : ∀ p ∈ ps, qsaList pTags (childrenOf p) = [])
    (h5 : firstIdx "<w:p ".data (serialize (mkStdDoc ps)) = none) :
    roundTrip now nowIso ⟨some (mkStdDoc ps), styles, rels⟩
      = some (serialize (mkStdDoc ps)) := by
  cases ps with
  | nil => exact absurd rfl h1
  | cons p0 rest =>
    obtain ⟨ch0, hp0⟩ := isPlainPara_shape p0 (h2 p0 (List.mem_cons_self p0 rest))
    subst hp0
    have hser := serialize_mkStdDoc (Xml.elem "w:p" "" ch0 :: rest)
    have hM1 := serializeList_plain_cons ch0 rest
    rw [hser] at h5
    have hhdr : getDocumentHeader
        (stdHdr ++ serializeList (Xml.elem "w:p" "" ch0 :: rest) ++ stdFtr) = stdHdr :=
      getDocumentHeader_std _ _ hM1 h5
    obtain ⟨M0, hM0⟩ :=
      serializeList_ends (Xml.elem "w:p" "" ch0 :: rest) (by simp) h2
    have hftr : getDocumentFooter
        (stdHdr ++ serializeList (Xml.elem "w:p" "" ch0 :: rest) ++ stdFtr) = stdFtr :=
      getDocumentFooter_std _ M0 hM0
    have hqsa : qsaList pTags (Xml.elem "w:p" "" ch0 :: rest)
        = Xml.elem "w:p" "" ch0 :: rest := qsa_plain _ h2 h4
    have hbody : findTag bodyTags (mkStdDoc (Xml.elem "w:p" "" ch0 :: rest))
        = some (Xml.elem "w:body" "" (Xml.elem "w:p" "" ch0 :: rest)) := rfl
    unfold roundTrip
    rw [parseWordDocument_ok now _ _ styles rels ⟨none⟩ hbody]
    dsimp only [childrenOf]
    rw [exportDocPart_eq nowIso _ _ _ rfl]
    dsimp only
    rw [hqsa, hser, hhdr, hftr]
    unfold buildParas
    rw [buildParasAux_map_xml now _ 0 h3, flatten_map_serialize]

/-- Counterexample for C1 as stated: `pkgGap` carries a stray space
between its two paragraphs; both paragraphs survive the empty-text filter
(display texts `Alpha` and `Beta`), yet the identity-order round trip does
not reproduce the original document markup — the space between the
paragraphs is in neither the header, nor any fragment, nor the footer. -/
theorem c1_counterexample :
    roundTrip 0 "T".data pkgGap ≠ some (serialize rootGap) ∧
    (parseWordDocument 0 pkgGap ⟨none⟩).2.map (fun l => l.map (·.displayText))
      = .ok ["Alpha".data, "Beta".data] :=
  ⟨by decide, by decide⟩

/-- Witness for the amended C1 at a concrete two-paragraph package. -/
theorem c1_witness :
    roundTrip 0 "T".data pkgStd = some (serialize (mkStdDoc [parA, parB])) :=
  c1_roundtrip_identity 0 "T".data none none [parA, parB]
    (by simp) (by decide) (by decide)
    (by intro p hp; fin_cases hp <;> rfl) (by decide)
